import Mathlib

/-!
Shallow embedding of dmitsh/node-resource-exporter.

Sources embedded:
- pkg/metrics/metrics.go : the ResourceScore tracker.
- pkg/metrics/report.go  : ReportResourceUsage and addResourceList (the
  variant in cmd/node-resource-exporter/main.go that also feeds the score
  gauge is embedded; report.go is identical except that it omits the score
  emission).
- cmd/node-resource-exporter/main.go : the sampling loop, flag handling and
  the process lifecycle (main / mainInternal / run.Group wiring).

Go float64 quantities are modelled as exact rationals (ℚ); Go maps are
modelled as association lists with Go map semantics (update-in-place on an
existing key, insert otherwise).
-/

namespace NodeResourceExporter

/-- Go map lookup (`v, ok := m[k]`) on an association-list model of a Go map. -/
def mapLookup {α : Type} : List (String × α) → String → Option α
  | [], _ => none
  | (k, v) :: rest, key => if k = key then some v else mapLookup rest key

/-- Go map assignment (`m[k] = v`): overwrite the binding of an existing key,
otherwise append a new binding. -/
def mapSet {α : Type} : List (String × α) → String → α → List (String × α)
  | [], key, v => [(key, v)]
  | (k, w) :: rest, key, v =>
    if k = key then (k, v) :: rest else (k, w) :: mapSet rest key v

/-- metrics.go: `type Score struct { total float64; count int64 }`. -/
structure Score where
  total : ℚ
  count : ℤ
deriving DecidableEq

/-- metrics.go: `type ResourceScore struct { scores map[string]*Score }`. -/
structure ResourceScore where
  scores : List (String × Score)
deriving DecidableEq

/-- metrics.go: `NewResourceScore` returns an empty score map. -/
def NewResourceScore : ResourceScore := ⟨[]⟩

/-- metrics.go lines 61-72: `func (s *ResourceScore) Score(resource string,
occ float64) float64`.  Returns the value Go returns together with the
updated state (the Go method mutates `s.scores` in place). -/
def ResourceScore.Score (s : ResourceScore) (resource : String) (occ : ℚ) :
    ℚ × ResourceScore :=
  let score :=
    match mapLookup s.scores resource with
    | none => { total := occ, count := 1 }
    | some sc => { total := sc.total + occ, count := sc.count + 1 }
  (100 * score.total / (score.count : ℚ), ⟨mapSet s.scores resource score⟩)

/-- Successive calls `s.Score(resource, v)` for each v in `vs`:
the list of returned values together with the final state. -/
def scoreRuns (s : ResourceScore) (resource : String) : List ℚ → List ℚ × ResourceScore
  | [] => ([], s)
  | v :: vs =>
    let r := s.Score resource v
    let rest := scoreRuns r.2 resource vs
    (r.1 :: rest.1, rest.2)

/-- The §4.2 occupancy calculator as realized inline in report.go lines
59-65: given the requested total and the node's allocatable value, emit
`occ * 100.0` where `occ := val / allocatable`, but only when
`allocatable > 0`; otherwise nothing is emitted. -/
def occupancy (requested allocatable : ℚ) : Option ℚ :=
  if 0 < allocatable then some (requested / allocatable * 100) else none

/-- Go type `corev1.ResourceList`: a Go map from resource name to quantity, with
each quantity's float64 value modelled as a rational. -/
abbrev ResourceList := List (String × ℚ)

/-- The loop body of report.go lines 79-86, value-level semantics: add the
entry's quantity onto the existing total for that name, or insert it (Go
deep-copies the quantity first, which does not change the stored value). -/
def addEntry (tot : ResourceList) (entry : String × ℚ) : ResourceList :=
  match mapLookup tot entry.1 with
  | some curr => mapSet tot entry.1 (curr + entry.2)
  | none => mapSet tot entry.1 entry.2

/-- report.go lines 78-87, as a fold of `addEntry` over the addition map's
entries. -/
def addResourceList (total addition : ResourceList) : ResourceList :=
  addition.foldl addEntry total

/-- The §4.1 aggregator: the orchestrator's accumulation loop applies
`addResourceList` to each workload's resource map in turn, starting from an
empty total (report.go lines 31-42, one kind of map at a time). -/
def aggregate (specs : List ResourceList) : ResourceList :=
  specs.foldl addResourceList []

/-- Go type `corev1.PodPhase` (the values used by the program). -/
inductive PodPhase
  | pending
  | running
  | succeeded
  | failed
  | unknown
deriving DecidableEq

/-- A container: `container.Resources.Requests` and `.Limits`. -/
structure Container where
  requests : ResourceList
  limits : ResourceList
deriving DecidableEq

/-- A pod: its lifecycle phase (`pod.Status.Phase`) and its containers
(`pod.Spec.Containers`). -/
structure Pod where
  phase : PodPhase
  containers : List Container
deriving DecidableEq

/-- A node as used by the sampler: `node.Name`, `node.Labels`,
`node.Status.Allocatable`. -/
structure Node where
  name : String
  labels : List (String × String)
  allocatable : ResourceList
deriving DecidableEq

/-- One tick's view of the cluster API: the result of the node-listing call
and, per node name, the result of the pod-listing call.  `none` models a
call that returned an error (`err != nil`). -/
structure Cluster where
  nodes : Option (List Node)
  podsOn : String → Option (List Pod)

/-- One gauge write (`WithLabelValues(labels...).Set(value)`) on one of the
four gauges of pkg/metrics. -/
inductive Emission
  | requests (labels : List String) (value : ℚ)
  | limits (labels : List String) (value : ℚ)
  | occupancyG (labels : List String) (value : ℚ)
  | scoreG (labels : List String) (value : ℚ)
deriving DecidableEq

/-- report.go lines 34-42: accumulate the requests and limits totals over a
node's pods, skipping every pod whose phase is not `PodRunning`. -/
def podTotals (pods : List Pod) : ResourceList × ResourceList :=
  pods.foldl
    (fun acc pod =>
      if pod.phase = PodPhase.running then
        pod.containers.foldl
          (fun acc c => (addResourceList acc.1 c.requests, addResourceList acc.2 c.limits))
          acc
      else acc)
    ([], [])

/-- report.go lines 20-23: resolve the configured node-label values; a
label missing from the node's label map yields the empty string (Go zero
value of a map read). -/
def nodeLabelValues (node : Node) (nodeLabels : List String) : List String :=
  nodeLabels.map fun name => (mapLookup node.labels name).getD ""

/-- The per-tracked-resource body of the sampler's inner loop
(main.go lines 342-370, equally report.go lines 48-74 minus the score
gauge): emit the request gauge (0 when the resource is absent from the
totals), then, when the node has a positive allocatable value for the
resource, feed the occupancy fraction to the score tracker and emit the
occupancy and score gauges, then emit the limit gauge. -/
def reportResource (node : Node) (labelValues : List String)
    (requests limits : ResourceList) (scores : ResourceScore) (resource : String) :
    List Emission × ResourceScore :=
  let scoreLabels := resource :: labelValues
  let labels := node.name :: scoreLabels
  let val := (mapLookup requests resource).getD 0
  let mid :=
    match mapLookup node.allocatable resource with
    | some v =>
      if 0 < v then
        let occ := val / v
        let r := scores.Score resource occ
        ([Emission.occupancyG labels (occ * 100), Emission.scoreG scoreLabels r.1], r.2)
      else ([], scores)
    | none => ([], scores)
  let lval := (mapLookup limits resource).getD 0
  (Emission.requests labels val :: mid.1 ++ [Emission.limits labels lval], mid.2)

/-- The per-node body of the sampler once the node's pods have been listed
(report.go lines 31-74): aggregate the running pods' requests and limits,
then process each tracked resource in order. -/
def processNode (node : Node) (pods : List Pod)
    (resources nodeLabels : List String) (scores : ResourceScore) :
    List Emission × ResourceScore :=
  let lv := nodeLabelValues node nodeLabels
  let t := podTotals pods
  resources.foldl
    (fun acc resource =>
      let r := reportResource node lv t.1 t.2 acc.2 resource
      (acc.1 ++ r.1, r.2))
    ([], scores)

/-- The per-node step of the sampler including the fallible pod-listing
call (report.go lines 25-29): on error, log and `continue` — the node
contributes no emissions and the score state is untouched. -/
def reportNode (podsOn : String → Option (List Pod))
    (resources nodeLabels : List String) (scores : ResourceScore) (node : Node) :
    List Emission × ResourceScore :=
  match podsOn node.name with
  | none => ([], scores)
  | some pods => processNode node pods resources nodeLabels scores

/-- One sampling pass, `ReportResourceUsage` (report.go lines 12-76,
main.go lines 306-372): list the nodes — on error, log and return with
nothing emitted — then process each node in order. -/
def reportResourceUsage (c : Cluster) (resources nodeLabels : List String)
    (scores : ResourceScore) : List Emission × ResourceScore :=
  match c.nodes with
  | none => ([], scores)
  | some nodes =>
    nodes.foldl
      (fun acc node =>
        let r := reportNode c.podsOn resources nodeLabels acc.2 node
        (acc.1 ++ r.1, r.2))
      ([], scores)

/-- The loop `startResourceSamplingLoop` (main.go lines 105-119): every ticker tick
runs one `reportResourceUsage` pass, unconditionally, until the context is
cancelled.  Modelled over the finite list of per-tick cluster snapshots the
loop observes before cancellation: the list of per-tick emissions and the
final score state. -/
def samplingLoop (resources nodeLabels : List String) (scores : ResourceScore) :
    List Cluster → List (List Emission) × ResourceScore
  | [] => ([], scores)
  | c :: ticks =>
    let r := reportResourceUsage c resources nodeLabels scores
    let rest := samplingLoop resources nodeLabels r.2 ticks
    (r.1 :: rest.1, rest.2)

/-- Go `strings.Split` with a single-character separator (the program only
ever splits on `","`): split the character list at every separator; the
empty input yields one empty segment, a slice holding just `""`. -/
def stringsSplitChars (sep : Char) : List Char → List (List Char)
  | [] => [[]]
  | c :: rest =>
    match stringsSplitChars sep rest with
    | [] => [[c]]
    | s :: tail => if c = sep then [] :: s :: tail else (c :: s) :: tail

/-- Go `strings.Split(s, sep)` for a one-character separator. -/
def stringsSplit (s : String) (sep : Char) : List String :=
  (stringsSplitChars sep s.data).map fun cs => ⟨cs⟩

/-- main.go line 94 (equally lines 279 and 458): the tracked-resource list
is `strings.Split(resources, ",")` applied to the `-r` flag value. -/
def trackedResources (resources : String) : List String :=
  stringsSplit resources ','

/-- The error values a run of the process can end with. -/
inductive ProcErr
  | configErr
  | clientErr
  | signalErr
  | serverErr
deriving DecidableEq

/-- The event that first terminates an actor of the lifecycle group: an OS
interrupt/termination signal delivered to the signal actor, or the HTTP
listener returning an error. -/
inductive RunTrigger
  | signal
  | serverFailure
deriving DecidableEq

/-- Models the contract of the external `oklog/run` library as used in
main.go lines 74-102: `Group.Run` returns the error of the first actor to
stop, and `run.SignalHandler`'s execute function returns a non-nil
`SignalError` when one of the registered signals arrives.  The HTTP
listener's `ListenAndServe` returns a non-nil error when it stops. -/
def gRunResult : RunTrigger → Option ProcErr
  | RunTrigger.signal => some ProcErr.signalErr
  | RunTrigger.serverFailure => some ProcErr.serverErr

/-- Function `mainInternal` (main.go lines 47-103): return the in-cluster-config
error if any, else the client-construction error if any, else the result of
`g.Run()`.  The two startup steps are modelled by their outcomes. -/
def mainInternalResult (configResult clientResult : Option ProcErr)
    (trigger : RunTrigger) : Option ProcErr :=
  match configResult with
  | some e => some e
  | none =>
    match clientResult with
    | some e => some e
    | none => gRunResult trigger

/-- Function `main` (main.go lines 185-190): exit code 1 when `mainInternal` returns
a non-nil error, 0 otherwise. -/
def processExitCode (configResult clientResult : Option ProcErr)
    (trigger : RunTrigger) : ℕ :=
  match mainInternalResult configResult clientResult trigger with
  | some _ => 1
  | none => 0

/-! ### Pointer-level model of addResourceList

For the frame property of `addResourceList` (the `addition` map is never
mutated) the deep-copy matters, so quantities are modelled as pointers to
heap cells holding the numeric value; a `corev1.ResourceList` becomes a map
from resource name to cell pointer. -/

/-- A heap of quantity cells. -/
structure Heap where
  cells : List ℚ
deriving DecidableEq

/-- Read the value of the cell at pointer `p`. -/
def Heap.read (h : Heap) (p : ℕ) : ℚ := h.cells.getD p 0

/-- Overwrite the cell at pointer `p` in place. -/
def Heap.write (h : Heap) (p : ℕ) (v : ℚ) : Heap := ⟨h.cells.set p v⟩

/-- Allocate a fresh cell holding `v` (`quantity.DeepCopy()` allocates);
returns the new heap and the fresh pointer. -/
def Heap.alloc (h : Heap) (v : ℚ) : Heap × ℕ :=
  (⟨h.cells ++ [v]⟩, h.cells.length)

/-- A resource list at the pointer level: resource name to quantity cell. -/
abbrev ResourceListP := List (String × ℕ)

/-- The loop body of report.go lines 79-86 at the pointer level: if the
total already binds the name, add the addition cell's value into total's
own cell in place (`curr.Add(quantity)`); otherwise bind the name in the
total to a fresh deep copy of the addition cell
(`total[resourceName] = quantity.DeepCopy()`). -/
def addEntryP (st : Heap × ResourceListP) (entry : String × ℕ) :
    Heap × ResourceListP :=
  match mapLookup st.2 entry.1 with
  | some curr => (st.1.write curr (st.1.read curr + st.1.read entry.2), st.2)
  | none =>
    let a := st.1.alloc (st.1.read entry.2)
    (a.1, mapSet st.2 entry.1 a.2)

/-- report.go lines 78-87 at the pointer level, as a fold of `addEntryP`. -/
def addResourceListP (h : Heap) (total addition : ResourceListP) :
    Heap × ResourceListP :=
  addition.foldl addEntryP (h, total)

/-- Numeric well-formedness of the score state: every recorded accumulator
has a running sum between 0 and its observation count, and has seen at
least one observation.  This is the invariant the §3 bounds rest on. -/
def ScoreWF (s : ResourceScore) : Prop :=
  ∀ p ∈ s.scores, 0 ≤ p.2.total ∧ p.2.total ≤ (p.2.count : ℚ) ∧ 1 ≤ p.2.count

/-- Pointwise addition of optional quantities, absent values contributing
nothing; the per-name effect of merging one resource map into another. -/
def addOpt (a b : Option ℚ) : Option ℚ :=
  match a, b with
  | some x, some y => some (x + y)
  | some x, none => some x
  | none, b => b

/-- The per-name aggregate of a sequence of resource maps: fold the maps'
optional values for that name with `addOpt`. -/
def aggOpt (specs : List ResourceList) (name : String) : Option ℚ :=
  specs.foldr (fun l acc => addOpt (mapLookup l name) acc) none

/-! ### Sample data for concrete instantiations -/

/-- A node with no labels and no allocatable entries. -/
def nodeA : Node := ⟨"n1", [], []⟩

/-- A second such node. -/
def nodeB : Node := ⟨"n2", [], []⟩

/-- A pod-listing stub that fails for node `n1` and returns no pods for
every other node. -/
def podsOnFailN1 : String → Option (List Pod) :=
  fun name => if name = "n1" then none else some []

/-- A tick snapshot listing `n1` and `n2` whose pod listing fails on `n1`. -/
def clusterAB : Cluster := ⟨some [nodeA, nodeB], podsOnFailN1⟩

/-- A tick snapshot whose node-listing call fails. -/
def clusterFail : Cluster := ⟨none, fun _ => some []⟩

/-- A tick snapshot with one empty node and successful listings. -/
def clusterOneNode : Cluster := ⟨some [nodeA], fun _ => some []⟩

/-! ### Lemmas about the Go-map model -/

theorem mapLookup_mapSet_self {α : Type} (m : List (String × α)) (k : String) (v : α) :
    mapLookup (mapSet m k v) k = some v := by
  induction m with
  | nil => simp [mapSet, mapLookup]
  | cons e rest ih =>
    obtain ⟨k1, w⟩ := e
    by_cases h : k1 = k
    · simp [mapSet, mapLookup, h]
    · simp [mapSet, mapLookup, h, ih]

theorem mapLookup_mapSet_ne {α : Type} (m : List (String × α)) (k key : String) (v : α)
    (h : key ≠ k) : mapLookup (mapSet m k v) key = mapLookup m key := by
  induction m with
  | nil => simp [mapSet, mapLookup, Ne.symm h]
  | cons e rest ih =>
    obtain ⟨k1, w⟩ := e
    by_cases h1 : k1 = k
    · subst h1
      simp [mapSet, mapLookup, Ne.symm h]
    · simp [mapSet, mapLookup, h1, ih]

theorem mapLookup_mem {α : Type} {m : List (String × α)} {k : String} {v : α}
    (h : mapLookup m k = some v) : (k, v) ∈ m := by
  induction m with
  | nil => simp [mapLookup] at h
  | cons e rest ih =>
    obtain ⟨k1, w⟩ := e
    by_cases h1 : k1 = k
    · subst h1
      simp [mapLookup] at h
      simp [h]
    · simp [mapLookup, h1] at h
      exact List.mem_cons_of_mem _ (ih h)

theorem mem_mapSet {α : Type} {m : List (String × α)} {k : String} {v : α} {e : String × α}
    (h : e ∈ mapSet m k v) : e = (k, v) ∨ e ∈ m := by
  induction m with
  | nil =>
    simp [mapSet] at h
    exact Or.inl h
  | cons f rest ih =>
    obtain ⟨k1, w⟩ := f
    by_cases h1 : k1 = k
    · subst h1
      simp [mapSet] at h
      rcases h with h | h
      · exact Or.inl (by simp [h])
      · exact Or.inr (List.mem_cons_of_mem _ h)
    · simp [mapSet, h1] at h
      rcases h with h | h
      · exact Or.inr (by simp [h])
      · rcases ih h with h2 | h2
        · exact Or.inl h2
        · exact Or.inr (List.mem_cons_of_mem _ h2)

theorem mapLookup_eq_none {α : Type} {m : List (String × α)} {k : String}
    (h : k ∉ m.map Prod.fst) : mapLookup m k = none := by
  induction m with
  | nil => simp [mapLookup]
  | cons e rest ih =>
    obtain ⟨k1, w⟩ := e
    simp only [List.map_cons, List.mem_cons, not_or] at h
    have h1 : k1 ≠ k := fun hh => h.1 hh.symm
    simp [mapLookup, h1, ih h.2]

/-! ### Lemmas about the score tracker -/

theorem scoreRuns_length (s : ResourceScore) (r : String) (vs : List ℚ) :
    (scoreRuns s r vs).1.length = vs.length := by
  induction vs generalizing s with
  | nil => simp [scoreRuns]
  | cons v vs ih => simp [scoreRuns, ih]

/-- Outputs of successive `Score` calls from a state whose accumulator for
`r` holds sum `t` over `c` observations. -/
theorem scoreRuns_getD (r : String) (vs : List ℚ) :
    ∀ (s : ResourceScore) (t : ℚ) (c : ℤ), mapLookup s.scores r = some ⟨t, c⟩ →
      ∀ i, i < vs.length →
        (scoreRuns s r vs).1.getD i 0
          = 100 * (t + (vs.take (i + 1)).sum) / ((c : ℚ) + i + 1) := by
  induction vs with
  | nil =>
    intro s t c hs i hi
    simp at hi
  | cons v vs ih =>
    intro s t c hs i hi
    have hlook :
        mapLookup (ResourceScore.mk
          (mapSet s.scores r ⟨t + v, c + 1⟩)).scores r = some ⟨t + v, c + 1⟩ :=
      mapLookup_mapSet_self s.scores r _
    cases i with
    | zero =>
      simp [scoreRuns, ResourceScore.Score, hs]
    | succ i =>
      have hrec := ih _ _ _ hlook i (by simpa using hi)
      simp only [scoreRuns, ResourceScore.Score, hs, List.getD_cons_succ]
      rw [hrec]
      simp [List.sum_cons]
      ring

/-- Outputs of successive `Score` calls on a fresh tracker. -/
theorem scoreRuns_empty_getD (r : String) (vs : List ℚ) (i : ℕ) (hi : i < vs.length) :
    (scoreRuns NewResourceScore r vs).1.getD i 0
      = 100 * ((vs.take (i + 1)).sum) / ((i : ℚ) + 1) := by
  cases vs with
  | nil => simp at hi
  | cons v vs =>
    have hlook :
        mapLookup (ResourceScore.mk
          (mapSet ([] : List (String × Score)) r ⟨v, 1⟩)).scores r = some ⟨v, 1⟩ :=
      mapLookup_mapSet_self ([] : List (String × Score)) r _
    cases i with
    | zero =>
      simp [scoreRuns, ResourceScore.Score, NewResourceScore, mapLookup]
    | succ i =>
      have hrec := scoreRuns_getD r vs _ _ _ hlook i (by simpa using hi)
      simp only [scoreRuns, ResourceScore.Score, NewResourceScore, mapLookup,
        List.getD_cons_succ]
      rw [hrec]
      simp [List.sum_cons]
      ring

/-- C3: the i-th call to `Score` for one resource name returns 100 times
the cumulative mean of the occupancy fractions seen so far (index `i`
counts from 0, so the i-th call averages the first `i+1` values); the first
call for a never-seen resource name returns exactly `100 * occ`; and the
call sequence `Score "cpu" 0.5`, `Score "cpu" 0.9` returns 50 then 70. -/
theorem score_cumulative_mean (r : String) (vs : List ℚ) (i : ℕ) (hi : i < vs.length) :
    (scoreRuns NewResourceScore r vs).1.getD i 0
        = 100 * ((vs.take (i + 1)).sum) / ((i : ℚ) + 1)
    ∧ (∀ (s : ResourceScore) (v : ℚ), mapLookup s.scores r = none →
        (s.Score r v).1 = 100 * v)
    ∧ (scoreRuns NewResourceScore "cpu" [1/2, 9/10]).1 = [50, 70] := by
  refine ⟨scoreRuns_empty_getD r vs i hi, ?_, ?_⟩
  · intro s v hnone
    simp [ResourceScore.Score, hnone]
  · simp [scoreRuns, ResourceScore.Score, NewResourceScore, mapLookup, mapSet]
    norm_num

theorem score_cumulative_mean_witness :
    ((scoreRuns NewResourceScore "cpu" [1/2, 9/10]).1.getD 1 0
        = 100 * ((([1/2, 9/10] : List ℚ).take 2).sum) / ((1 : ℚ) + 1)
      ∧ (∀ (s : ResourceScore) (v : ℚ), mapLookup s.scores "cpu" = none →
          (s.Score "cpu" v).1 = 100 * v)
      ∧ (scoreRuns NewResourceScore "cpu" [1/2, 9/10]).1 = [50, 70]) :=
  score_cumulative_mean "cpu" [1/2, 9/10] 1 (by norm_num)

/-- C4: the occupancy computation yields no value exactly when the
allocatable quantity is non-positive, otherwise `100 * requested /
allocatable`; `occupancy 50 200 = 25`, with no clamping applied. -/
theorem occupancy_spec (r a : ℚ) :
    (occupancy r a = none ↔ a ≤ 0)
    ∧ (0 < a → occupancy r a = some (100 * r / a))
    ∧ occupancy 50 200 = some 25 := by
  refine ⟨?_, ?_, ?_⟩
  · by_cases h : 0 < a
    · simp [occupancy, h]
    · simp [occupancy, h, not_lt.mp h]
  · intro h
    simp [occupancy, h]
    ring
  · norm_num [occupancy]

theorem occupancy_spec_witness :
    ((occupancy 50 200 = none ↔ (200 : ℚ) ≤ 0)
      ∧ ((0 : ℚ) < 200 → occupancy 50 200 = some (100 * 50 / 200))
      ∧ occupancy 50 200 = some 25) :=
  occupancy_spec 50 200

/-! ### Lemmas about the aggregator -/

theorem addOpt_none_right (a : Option ℚ) : addOpt a none = a := by
  cases a <;> rfl

theorem addOpt_assoc (a b c : Option ℚ) :
    addOpt (addOpt a b) c = addOpt a (addOpt b c) := by
  cases a <;> cases b <;> cases c <;> simp [addOpt, add_assoc]

theorem aggOpt_cons (l : ResourceList) (rest : List ResourceList) (name : String) :
    aggOpt (l :: rest) name = addOpt (mapLookup l name) (aggOpt rest name) := rfl

theorem mapLookup_addEntry (total : ResourceList) (e : String × ℚ) (name : String) :
    mapLookup (addEntry total e) name
      = if name = e.1 then addOpt (mapLookup total e.1) (some e.2)
        else mapLookup total name := by
  unfold addEntry
  cases hl : mapLookup total e.1 with
  | none =>
    by_cases h : name = e.1
    · subst h
      simp [mapLookup_mapSet_self, hl, addOpt]
    · rw [if_neg h, mapLookup_mapSet_ne _ _ _ _ h]
  | some curr =>
    by_cases h : name = e.1
    · subst h
      simp [mapLookup_mapSet_self, hl, addOpt]
    · rw [if_neg h, mapLookup_mapSet_ne _ _ _ _ h]

theorem addResourceList_lookup (addition : ResourceList) :
    ∀ (total : ResourceList), (addition.map Prod.fst).Nodup → ∀ name,
      mapLookup (addResourceList total addition) name
        = addOpt (mapLookup total name) (mapLookup addition name) := by
  induction addition with
  | nil =>
    intro total _ name
    simp [addResourceList, mapLookup, addOpt_none_right]
  | cons e rest ih =>
    intro total hnd name
    obtain ⟨k, v⟩ := e
    simp only [List.map_cons, List.nodup_cons] at hnd
    have hstep : addResourceList total ((k, v) :: rest)
        = addResourceList (addEntry total (k, v)) rest := rfl
    rw [hstep, ih (addEntry total (k, v)) hnd.2 name, mapLookup_addEntry]
    by_cases h : name = k
    · subst h
      have hrest : mapLookup rest name = none := mapLookup_eq_none hnd.1
      rw [if_pos rfl]
      simp [mapLookup, hrest, addOpt_none_right]
    · rw [if_neg h]
      simp [mapLookup, Ne.symm h]

theorem aggOpt_getD (specs : List ResourceList) (name : String) :
    (aggOpt specs name).getD 0 = (specs.map fun l => (mapLookup l name).getD 0).sum := by
  induction specs with
  | nil => simp [aggOpt]
  | cons l rest ih =>
    rw [aggOpt_cons]
    cases hl : mapLookup l name with
    | none =>
      simpa [addOpt, hl] using ih
    | some x =>
      cases hr : aggOpt rest name with
      | none =>
        rw [hr] at ih
        simp only [Option.getD_none] at ih
        simp [addOpt, hl, ← ih]
      | some y =>
        rw [hr] at ih
        simp only [Option.getD_some] at ih
        simp [addOpt, hl, ← ih]

theorem aggOpt_eq_none_iff (specs : List ResourceList) (name : String) :
    aggOpt specs name = none ↔ ∀ l ∈ specs, mapLookup l name = none := by
  induction specs with
  | nil => simp [aggOpt]
  | cons l rest ih =>
    rw [aggOpt_cons]
    cases hl : mapLookup l name with
    | none =>
      simp only [addOpt]
      rw [ih]
      constructor
      · intro h l2 hl2
        rcases List.mem_cons.mp hl2 with h2 | h2
        · rw [h2]; exact hl
        · exact h l2 h2
      · intro h l2 hl2
        exact h l2 (List.mem_cons_of_mem _ hl2)
    | some x =>
      constructor
      · intro h
        exfalso
        cases hr : aggOpt rest name <;> rw [hr] at h <;> simp [addOpt] at h
      · intro h
        have hc := h l (List.mem_cons_self _ _)
        rw [hl] at hc
        exact absurd hc (by simp)

theorem foldl_addResourceList_lookup (specs : List ResourceList) :
    (∀ l ∈ specs, (l.map Prod.fst).Nodup) → ∀ (total : ResourceList) (name : String),
      mapLookup (specs.foldl addResourceList total) name
        = addOpt (mapLookup total name) (aggOpt specs name) := by
  induction specs with
  | nil =>
    intro _ total name
    simp [aggOpt, addOpt_none_right]
  | cons l rest ih =>
    intro hnd total name
    have h1 : (l.map Prod.fst).Nodup := hnd l (List.mem_cons_self _ _)
    have h2 : ∀ l2 ∈ rest, (l2.map Prod.fst).Nodup :=
      fun l2 hl2 => hnd l2 (List.mem_cons_of_mem _ hl2)
    rw [List.foldl_cons, ih h2, addResourceList_lookup l total h1 name, aggOpt_cons,
      addOpt_assoc]

/-- C5: aggregation returns, per resource name, the arithmetic sum of that
name's quantities across all input maps (maps lacking the name contribute
nothing); a name absent from every input map is absent from the output. -/
theorem aggregate_sum (specs : List ResourceList) (name : String)
    (hnd : ∀ l ∈ specs, (l.map Prod.fst).Nodup) :
    ((∀ l ∈ specs, mapLookup l name = none) → mapLookup (aggregate specs) name = none)
    ∧ ((∃ l ∈ specs, (mapLookup l name).isSome) →
        mapLookup (aggregate specs) name
          = some ((specs.map fun l => (mapLookup l name).getD 0).sum)) := by
  have hagg : mapLookup (aggregate specs) name = aggOpt specs name := by
    have h := foldl_addResourceList_lookup specs hnd [] name
    simpa [aggregate, mapLookup, addOpt] using h
  constructor
  · intro h
    rw [hagg, (aggOpt_eq_none_iff specs name).mpr h]
  · rintro ⟨l, hl, hsome⟩
    rw [hagg]
    cases hr : aggOpt specs name with
    | none =>
      have hc := (aggOpt_eq_none_iff specs name).mp hr l hl
      rw [hc] at hsome
      simp at hsome
    | some y =>
      have hg := aggOpt_getD specs name
      rw [hr] at hg
      simp only [Option.getD_some] at hg
      rw [hg]

theorem aggregate_sum_witness :
    ((∀ l ∈ [[("cpu", (1:ℚ))], [("cpu", 2), ("mem", 3)]], mapLookup l "cpu" = none) →
        mapLookup (aggregate [[("cpu", (1:ℚ))], [("cpu", 2), ("mem", 3)]]) "cpu" = none)
    ∧ ((∃ l ∈ [[("cpu", (1:ℚ))], [("cpu", 2), ("mem", 3)]], (mapLookup l "cpu").isSome) →
        mapLookup (aggregate [[("cpu", (1:ℚ))], [("cpu", 2), ("mem", 3)]]) "cpu"
          = some (([[("cpu", (1:ℚ))], [("cpu", 2), ("mem", 3)]].map
              fun l => (mapLookup l "cpu").getD 0).sum)) :=
  aggregate_sum [[("cpu", (1:ℚ))], [("cpu", 2), ("mem", 3)]] "cpu" (by decide)

/-! ### Bounds on occupancy and score values -/

theorem score_value_bounds (t : ℚ) (c : ℤ) (h0 : 0 ≤ t) (h1 : t ≤ (c : ℚ)) (hc : 1 ≤ c) :
    0 ≤ 100 * t / (c : ℚ) ∧ 100 * t / (c : ℚ) ≤ 100 := by
  have hcq : (0 : ℚ) < (c : ℚ) := by
    have : (1 : ℚ) ≤ (c : ℚ) := by exact_mod_cast hc
    linarith
  constructor
  · positivity
  · rw [div_le_iff₀ hcq]
    linarith

/-- C9 counterexample: with requested = 2 and allocatable = 1 — both
non-negative and finite, allocatable positive — the emitted occupancy value
is 200, outside [0, 100]. -/
theorem occupancy_exceeds_100 :
    (0 : ℚ) ≤ 2 ∧ (0 : ℚ) < 1 ∧ occupancy 2 1 = some 200 ∧ ¬((200 : ℚ) ≤ 100) := by
  refine ⟨by norm_num, by norm_num, ?_, by norm_num⟩
  simp [occupancy]
  norm_num

/-- C9 amended: under non-negative inputs with the requested total not
exceeding the allocatable, every occupancy value lies in [0, 100]; and from
a well-formed score state, a `Score` call with an occupancy fraction in
[0, 1] returns a value in [0, 100] and preserves well-formedness.  No upper
clamp is applied (occupancy exceeds 100 as soon as requested exceeds
allocatable, see the counterexample). -/
theorem percentages_bounded (r a v : ℚ) (s : ResourceScore) (name : String)
    (hr : 0 ≤ r) (hra : r ≤ a) (hwf : ScoreWF s) (hv0 : 0 ≤ v) (hv1 : v ≤ 1) :
    (∀ x, occupancy r a = some x → 0 ≤ x ∧ x ≤ 100)
    ∧ (0 ≤ (s.Score name v).1 ∧ (s.Score name v).1 ≤ 100
        ∧ ScoreWF (s.Score name v).2) := by
  constructor
  · intro x hx
    unfold occupancy at hx
    by_cases ha : 0 < a
    · rw [if_pos ha] at hx
      have hx2 : x = r / a * 100 := by
        injection hx.symm
      subst hx2
      constructor
      · positivity
      · have : r / a ≤ 1 := (div_le_one ha).mpr hra
        nlinarith
    · rw [if_neg ha] at hx
      exact absurd hx (by simp)
  · cases hlook : mapLookup s.scores name with
    | none =>
      have hb := score_value_bounds v 1 hv0 (by exact_mod_cast hv1) le_rfl
      refine ⟨?_, ?_, ?_⟩
      · simpa [ResourceScore.Score, hlook] using hb.1
      · simpa [ResourceScore.Score, hlook] using hb.2
      · intro p hp
        simp only [ResourceScore.Score, hlook] at hp
        rcases mem_mapSet hp with h | h
        · subst h
          refine ⟨hv0, by exact_mod_cast hv1, le_rfl⟩
        · exact hwf p h
    | some sc =>
      have hmem : (name, sc) ∈ s.scores := mapLookup_mem hlook
      have hsc := hwf (name, sc) hmem
      dsimp only at hsc
      obtain ⟨hs1, hs2, hs3⟩ := hsc
      have hb := score_value_bounds (sc.total + v) (sc.count + 1)
        (by linarith) (by push_cast; linarith) (by linarith)
      refine ⟨?_, ?_, ?_⟩
      · simpa [ResourceScore.Score, hlook] using hb.1
      · simpa [ResourceScore.Score, hlook] using hb.2
      · intro p hp
        simp only [ResourceScore.Score, hlook] at hp
        rcases mem_mapSet hp with h | h
        · subst h
          refine ⟨?_, ?_, ?_⟩
          · show (0 : ℚ) ≤ sc.total + v
            linarith
          · show sc.total + v ≤ ((sc.count + 1 : ℤ) : ℚ)
            push_cast
            linarith
          · show (1 : ℤ) ≤ sc.count + 1
            linarith
        · exact hwf p h

theorem percentages_bounded_witness :
    ((0 : ℚ) ≤ 1 ∧ (1 : ℚ) ≤ 4 ∧ ScoreWF NewResourceScore
        ∧ (0 : ℚ) ≤ 1/2 ∧ (1 : ℚ)/2 ≤ 1)
    ∧ ((∀ x, occupancy 1 4 = some x → 0 ≤ x ∧ x ≤ 100)
        ∧ (0 ≤ (NewResourceScore.Score "cpu" (1/2)).1
            ∧ (NewResourceScore.Score "cpu" (1/2)).1 ≤ 100
            ∧ ScoreWF (NewResourceScore.Score "cpu" (1/2)).2)) :=
  ⟨⟨by norm_num, by norm_num, by simp [ScoreWF, NewResourceScore], by norm_num, by norm_num⟩,
    percentages_bounded 1 4 (1/2) NewResourceScore "cpu"
      (by norm_num) (by norm_num) (by simp [ScoreWF, NewResourceScore])
      (by norm_num) (by norm_num)⟩

/-! ### The running-phase filter -/

/-- C6: a pod whose phase is not `running` contributes nothing: removing it
from a node's pod list changes neither the aggregated requests/limits
totals nor anything the sampler emits or records for that node. -/
theorem nonrunning_pod_contributes_nothing (p : Pod) (hp : p.phase ≠ PodPhase.running)
    (pre post : List Pod) (node : Node) (resources nodeLabels : List String)
    (scores : ResourceScore) :
    podTotals (pre ++ p :: post) = podTotals (pre ++ post)
    ∧ processNode node (pre ++ p :: post) resources nodeLabels scores
        = processNode node (pre ++ post) resources nodeLabels scores := by
  have h1 : podTotals (pre ++ p :: post) = podTotals (pre ++ post) := by
    unfold podTotals
    rw [List.foldl_append, List.foldl_append, List.foldl_cons, if_neg hp]
  exact ⟨h1, by simp [processNode, h1]⟩

theorem nonrunning_pod_contributes_nothing_witness :
    ((⟨PodPhase.pending, [⟨[("cpu", (1:ℚ))], [("cpu", 2)]⟩]⟩ : Pod).phase ≠ PodPhase.running
      ∧ podTotals ([] ++ (⟨PodPhase.pending, [⟨[("cpu", (1:ℚ))], [("cpu", 2)]⟩]⟩ : Pod) :: [])
          = podTotals ([] ++ [])
      ∧ processNode ⟨"n1", [], [("cpu", 4)]⟩
            ([] ++ (⟨PodPhase.pending, [⟨[("cpu", (1:ℚ))], [("cpu", 2)]⟩]⟩ : Pod) :: [])
            ["cpu"] [] NewResourceScore
          = processNode ⟨"n1", [], [("cpu", 4)]⟩ ([] ++ []) ["cpu"] [] NewResourceScore) := by
  refine ⟨by decide, ?_⟩
  exact nonrunning_pod_contributes_nothing
    ⟨PodPhase.pending, [⟨[("cpu", (1:ℚ))], [("cpu", 2)]⟩]⟩ (by decide)
    [] [] ⟨"n1", [], [("cpu", 4)]⟩ ["cpu"] [] NewResourceScore

/-! ### Failure isolation -/

/-- C7: when one node's pod-listing call fails, only that node is skipped:
the pass produces exactly the emissions and score state it would produce on
the same cluster with the failing node absent from the node list. -/
theorem podListFailure_skips_node (c : Cluster) (pre post : List Node) (bad : Node)
    (hn : c.nodes = some (pre ++ bad :: post)) (hb : c.podsOn bad.name = none)
    (resources nodeLabels : List String) (scores : ResourceScore) :
    reportResourceUsage c resources nodeLabels scores
      = reportResourceUsage ⟨some (pre ++ post), c.podsOn⟩ resources nodeLabels scores := by
  simp only [reportResourceUsage, hn]
  rw [List.foldl_append, List.foldl_append, List.foldl_cons]
  congr 1
  simp [reportNode, hb]

theorem podListFailure_skips_node_witness :
    (clusterAB.nodes = some ([] ++ nodeA :: [nodeB])
      ∧ clusterAB.podsOn nodeA.name = none
      ∧ reportResourceUsage clusterAB ["cpu"] [] NewResourceScore
          = reportResourceUsage ⟨some ([] ++ [nodeB]), clusterAB.podsOn⟩
              ["cpu"] [] NewResourceScore) :=
  ⟨rfl, by simp [clusterAB, podsOnFailN1, nodeA],
    podListFailure_skips_node clusterAB [] [nodeB] nodeA rfl
      (by simp [clusterAB, podsOnFailN1, nodeA]) ["cpu"] [] NewResourceScore⟩

theorem samplingLoop_append (resources nodeLabels : List String) (a b : List Cluster) :
    ∀ s : ResourceScore,
      samplingLoop resources nodeLabels s (a ++ b)
        = ((samplingLoop resources nodeLabels s a).1
            ++ (samplingLoop resources nodeLabels
                  (samplingLoop resources nodeLabels s a).2 b).1,
          (samplingLoop resources nodeLabels
            (samplingLoop resources nodeLabels s a).2 b).2) := by
  induction a with
  | nil =>
    intro s
    simp [samplingLoop]
  | cons c rest ih =>
    intro s
    simp [samplingLoop, ih]

/-- C8: a tick whose node-listing call fails emits nothing and leaves the
score state untouched, and the loop still runs every later tick exactly as
scheduled, with the state it had before the failing tick. -/
theorem nodeListFailure_skips_tick (cFail : Cluster) (hk : cFail.nodes = none)
    (pre post : List Cluster) (resources nodeLabels : List String) (s : ResourceScore) :
    reportResourceUsage cFail resources nodeLabels s = ([], s)
    ∧ samplingLoop resources nodeLabels s (pre ++ cFail :: post)
        = ((samplingLoop resources nodeLabels s pre).1
            ++ [] :: (samplingLoop resources nodeLabels
                  (samplingLoop resources nodeLabels s pre).2 post).1,
          (samplingLoop resources nodeLabels
            (samplingLoop resources nodeLabels s pre).2 post).2) := by
  have h1 : ∀ t : ResourceScore, reportResourceUsage cFail resources nodeLabels t = ([], t) := by
    intro t
    simp [reportResourceUsage, hk]
  refine ⟨h1 s, ?_⟩
  rw [samplingLoop_append]
  simp [samplingLoop, h1]

theorem nodeListFailure_skips_tick_witness :
    (clusterFail.nodes = none
      ∧ (reportResourceUsage clusterFail ["cpu"] [] NewResourceScore
            = ([], NewResourceScore)
          ∧ samplingLoop ["cpu"] [] NewResourceScore ([] ++ clusterFail :: [clusterOneNode])
              = ((samplingLoop ["cpu"] [] NewResourceScore []).1
                  ++ [] :: (samplingLoop ["cpu"] []
                        (samplingLoop ["cpu"] [] NewResourceScore []).2 [clusterOneNode]).1,
                (samplingLoop ["cpu"] []
                  (samplingLoop ["cpu"] [] NewResourceScore []).2 [clusterOneNode]).2))) :=
  ⟨rfl, nodeListFailure_skips_tick clusterFail rfl [] [clusterOneNode] ["cpu"] []
    NewResourceScore⟩

/-! ### The frame property of addResourceList -/

theorem Heap.read_write_ne (h : Heap) (p q : ℕ) (v : ℚ) (hpq : p ≠ q) :
    (h.write q v).read p = h.read p := by
  simp only [Heap.read, Heap.write, List.getD_eq_getElem?_getD]
  rw [List.getElem?_set_ne (by omega)]

theorem Heap.write_length (h : Heap) (q : ℕ) (v : ℚ) :
    (h.write q v).cells.length = h.cells.length := by
  simp [Heap.write]

theorem Heap.read_grow (h : Heap) (p : ℕ) (v : ℚ) (hp : p < h.cells.length) :
    (Heap.mk (h.cells ++ [v])).read p = h.read p := by
  simp only [Heap.read, List.getD_eq_getElem?_getD]
  rw [List.getElem?_append_left hp]

/-- Folding `addEntryP` over any work list leaves every protected cell (a
cell outside the total map's own cells) untouched, never shrinks the heap,
and keeps the total map's cells outside the protected set. -/
theorem foldl_addEntryP_frame (S : List ℕ) (ws : List (String × ℕ)) :
    ∀ (h : Heap) (total : ResourceListP),
      (∀ p ∈ S, p < h.cells.length) →
      (∀ e ∈ total, e.2 ∉ S) →
      ((∀ p ∈ S, (ws.foldl addEntryP (h, total)).1.read p = h.read p)
        ∧ h.cells.length ≤ (ws.foldl addEntryP (h, total)).1.cells.length
        ∧ (∀ e ∈ (ws.foldl addEntryP (h, total)).2, e.2 ∉ S)) := by
  induction ws with
  | nil =>
    intro h total hS hT
    exact ⟨fun p _ => rfl, le_rfl, hT⟩
  | cons w rest ih =>
    intro h total hS hT
    rcases hl : mapLookup total w.1 with _ | curr
    · -- not found: a fresh cell is allocated and bound in the total
      have hstep : addEntryP (h, total) w
          = (Heap.mk (h.cells ++ [h.read w.2]), mapSet total w.1 h.cells.length) := by
        simp [addEntryP, hl, Heap.alloc]
      have hS1 : ∀ p ∈ S, p < (h.cells ++ [h.read w.2]).length := by
        intro p hp
        have := hS p hp
        simp
        omega
      have hT1 : ∀ e ∈ mapSet total w.1 h.cells.length, e.2 ∉ S := by
        intro e he
        rcases mem_mapSet he with h2 | h2
        · subst h2
          intro hmem
          exact absurd (hS _ hmem) (by omega)
        · exact hT e h2
      have hrec := ih (Heap.mk (h.cells ++ [h.read w.2]))
        (mapSet total w.1 h.cells.length) hS1 hT1
      rw [List.foldl_cons, hstep]
      refine ⟨?_, ?_, hrec.2.2⟩
      · intro p hp
        rw [hrec.1 p hp, Heap.read_grow h p _ (hS p hp)]
      · calc h.cells.length ≤ (h.cells ++ [h.read w.2]).length := by simp
          _ ≤ _ := hrec.2.1
    · -- found: total's own cell is overwritten in place
      have hcurr : curr ∉ S := hT (w.1, curr) (mapLookup_mem hl)
      have hstep : addEntryP (h, total) w
          = (h.write curr (h.read curr + h.read w.2), total) := by
        simp [addEntryP, hl]
      have hS1 : ∀ p ∈ S, p < (h.write curr (h.read curr + h.read w.2)).cells.length := by
        intro p hp
        rw [Heap.write_length]
        exact hS p hp
      have hrec := ih (h.write curr (h.read curr + h.read w.2)) total hS1 hT
      rw [List.foldl_cons, hstep]
      refine ⟨?_, ?_, hrec.2.2⟩
      · intro p hp
        rw [hrec.1 p hp, Heap.read_write_ne h p curr _ (fun hpc => hcurr (hpc ▸ hp))]
      · calc h.cells.length = (h.write curr (h.read curr + h.read w.2)).cells.length := by
              rw [Heap.write_length]
          _ ≤ _ := hrec.2.1

/-- C10: `addResourceList` never mutates its addition argument: when the
total map's cells are disjoint from the addition map's (valid) cells — as
the deep-copy-on-first-insert discipline guarantees for every total the
program builds — every quantity cell of the addition map holds the same
value after the call.  The addition's name-to-cell bindings are not even
threaded through the fold, so they are unchanged by construction. -/
theorem addResourceListP_frame (h : Heap) (total addition : ResourceListP)
    (hvalid : ∀ e ∈ addition, e.2 < h.cells.length)
    (hdisj : ∀ e ∈ total, ∀ e2 ∈ addition, e.2 ≠ e2.2) :
    ∀ e ∈ addition, (addResourceListP h total addition).1.read e.2 = h.read e.2 := by
  intro e he
  have hf := foldl_addEntryP_frame (addition.map Prod.snd) addition h total
    (by
      intro p hp
      rcases List.mem_map.mp hp with ⟨e2, he2, rfl⟩
      exact hvalid e2 he2)
    (by
      intro e1 he1 hmem
      rcases List.mem_map.mp hmem with ⟨e2, he2, heq⟩
      exact hdisj e1 he1 e2 he2 heq.symm)
  exact hf.1 e.2 (List.mem_map.mpr ⟨e, he, rfl⟩)

theorem addResourceListP_frame_witness :
    ((∀ e ∈ [("mem", 1)], e.2 < (Heap.mk [5, 7]).cells.length)
      ∧ (∀ e ∈ [("cpu", 0)], ∀ e2 ∈ [("mem", 1)], e.2 ≠ e2.2)
      ∧ ∀ e ∈ [("mem", 1)],
          (addResourceListP (Heap.mk [5, 7]) [("cpu", 0)] [("mem", 1)]).1.read e.2
            = (Heap.mk [5, 7]).read e.2) :=
  ⟨by decide, by decide,
    addResourceListP_frame (Heap.mk [5, 7]) [("cpu", 0)] [("mem", 1)]
      (by decide) (by decide)⟩

/-! ### Process exit codes -/

/-- C1 counterexample: with successful startup and a clean signal-triggered
shutdown, the process exits with code 1, not 0 — `Group.Run` hands back the
signal handler's non-nil `SignalError`, and `main` exits 1 on any non-nil
error without distinguishing it. -/
theorem signal_shutdown_exit_code :
    processExitCode none none RunTrigger.signal = 1
    ∧ processExitCode none none RunTrigger.signal ≠ 0 :=
  ⟨rfl, by decide⟩

/-- C1 amended: the process exits with code 1 on every termination path —
startup failure, but also signal-triggered shutdown and server failure —
because every actor of the lifecycle group returns a non-nil error and
`main` maps any non-nil error to exit code 1.  It never exits 0. -/
theorem processExitCode_eq_one (configResult clientResult : Option ProcErr)
    (trigger : RunTrigger) :
    processExitCode configResult clientResult trigger = 1 := by
  cases configResult <;> cases clientResult <;> cases trigger <;> rfl

/-! ### The empty tracked-resources flag -/

/-- C2 counterexample: an empty `-r` value splits into the one-element list
`[""]`, not the empty list, and a pass over one node still emits the
request and limit gauges (labelled with the empty resource name). -/
theorem emptyFlag_still_emits :
    trackedResources "" = [""]
    ∧ trackedResources "" ≠ []
    ∧ (reportResourceUsage clusterOneNode (trackedResources "") [] NewResourceScore).1
        = [Emission.requests ["n1", ""] 0, Emission.limits ["n1", ""] 0]
    ∧ (reportResourceUsage clusterOneNode (trackedResources "") [] NewResourceScore).1
        ≠ [] :=
  ⟨by decide, by decide, by decide, by decide⟩

/-- C2 amended: with the `-r` flag empty the tracked-resource list is the
single empty name, so each sampled node emits exactly a request gauge and a
limit gauge for the empty resource name (value 0 whenever the totals lack
that name), while occupancy and score stay unemitted as long as the node's
allocatable map has no entry for the empty name. -/
theorem emptyFlag_single_empty_resource (node : Node) (pods : List Pod)
    (nodeLabels : List String) (s : ResourceScore)
    (hAlloc : mapLookup node.allocatable "" = none) :
    trackedResources "" = [""]
    ∧ processNode node pods (trackedResources "") nodeLabels s
        = ([Emission.requests (node.name :: "" :: nodeLabelValues node nodeLabels)
              ((mapLookup (podTotals pods).1 "").getD 0),
            Emission.limits (node.name :: "" :: nodeLabelValues node nodeLabels)
              ((mapLookup (podTotals pods).2 "").getD 0)], s) := by
  have ht : trackedResources "" = [""] := by decide
  refine ⟨ht, ?_⟩
  rw [ht]
  simp [processNode, reportResource, hAlloc]

theorem emptyFlag_single_empty_resource_witness :
    (mapLookup nodeA.allocatable "" = none
      ∧ (trackedResources "" = [""]
          ∧ processNode nodeA [] (trackedResources "") [] NewResourceScore
              = ([Emission.requests (nodeA.name :: "" :: nodeLabelValues nodeA [])
                    ((mapLookup (podTotals []).1 "").getD 0),
                  Emission.limits (nodeA.name :: "" :: nodeLabelValues nodeA [])
                    ((mapLookup (podTotals []).2 "").getD 0)], NewResourceScore))) :=
  ⟨rfl, emptyFlag_single_empty_resource nodeA [] [] NewResourceScore rfl⟩

end NodeResourceExporter
